import Mathlib

/-!
Verification of the schema-parsing and model-ranking core of the repository.

The schema side embeds `src/lib/schema-parser.ts` (parseInputSchema,
parseProperty, resolveCompositeSchema, determineFieldType, isFileField,
isTextAreaField, determineStep, determineFileAccept, formatLabel,
formatEnumLabel, validateInput).  The ranking side embeds the model ranking
module (calculateModelScore, rankModels, searchAndRankModels).

Modelling conventions:
* JSON literal values (`unknown` in the TypeScript types, used for `default`,
  `enum` members and `const`) are modelled by `Value`; the data model (§3 of
  the spec) only uses literal values in these positions.
* JavaScript numbers in schema positions (minimum/maximum/x-order) are exact
  small decimals in practice and are modelled by `ℚ`; the ranking scores use
  `Math.log10` and are modelled by `ℝ`.
* Absent object keys are `none`; JS object spread `{...base, ...ov}` is
  field-wise `ov.field <|> base.field` (a present key of `ov` wins).
* `Array.prototype.sort` is required by ECMAScript to be stable; it is
  modelled by a stable insertion sort driven by the numeric comparator:
  an element is placed before the first element of the already-sorted prefix
  that the comparator orders it strictly before.
-/

/-- A JSON literal value (null, boolean, number or string). -/
inductive Value where
  | null : Value
  | bool : Bool → Value
  | num : ℚ → Value
  | str : String → Value
deriving DecidableEq, Repr

/-- The fields of a JSON schema node, parameterised by the type of nested
nodes (`src/types`: interface JSONSchema). -/
structure SchemaF (σ : Type) where
  type : Option String := none
  title : Option String := none
  description : Option String := none
  default : Option Value := none
  enum : Option (List Value) := none
  const : Option Value := none
  minimum : Option ℚ := none
  maximum : Option ℚ := none
  minLength : Option ℕ := none
  maxLength : Option ℕ := none
  format : Option String := none
  xOrder : Option ℚ := none
  items : Option σ := none
  properties : Option (List (String × Option σ)) := none
  required : Option (List String) := none
  allOf : Option (List σ) := none
  anyOf : Option (List σ) := none
  oneOf : Option (List σ) := none

/-- A JSON schema node (tying the recursive knot of `SchemaF`). -/
inductive JSONSchema where
  | mk : SchemaF JSONSchema → JSONSchema

/-- The fields of a schema node. -/
def JSONSchema.f : JSONSchema → SchemaF JSONSchema
  | .mk x => x

@[simp] theorem JSONSchema.f_mk (x : SchemaF JSONSchema) : (JSONSchema.mk x).f = x := rfl

/-- The kinds of synthesized form fields (`FormFieldType` in `src/types`). -/
inductive FormFieldType where
  | text | textarea | number | slider | select | boolean | file | array | json
deriving DecidableEq, Repr

/-- One select option: `{ label, value }`. -/
structure Choice where
  label : String
  value : Value
deriving DecidableEq, Repr

/-- A synthesized form field (`FormField` in `src/types`); per-kind extras are
optional fields. -/
structure FormField where
  name : String
  label : String
  description : Option String := none
  required : Bool := false
  default : Option Value := none
  order : Option ℚ := none
  schema : JSONSchema
  type : FormFieldType
  options : List Choice := []
  min : Option ℚ := none
  max : Option ℚ := none
  step : Option ℚ := none
  accept : Option String := none

/-! ### String helpers (JS string built-ins) -/

/-- JS `String.prototype.toLowerCase` (ASCII; schema text is ASCII). -/
def toLowerStr (s : String) : String :=
  String.mk (s.data.map Char.toLower)

/-- JS `String.prototype.trim`: drop whitespace from both ends. -/
def trimStr (s : String) : String :=
  String.mk (((s.data.dropWhile Char.isWhitespace).reverse.dropWhile
    Char.isWhitespace).reverse)

/-- JS `String.prototype.includes`: `sub` occurs as a contiguous substring of
`s` (the empty string is a substring of everything, as in JS). -/
def containsSub (s sub : String) : Bool :=
  s.data.tails.any (fun t => sub.data.isPrefixOf t)

/-- JS string coercion `String(value)` of a literal value. -/
def jsString : Value → String
  | .null => "null"
  | .bool true => "true"
  | .bool false => "false"
  | .num q => if q.den = 1 then toString q.num else toString q
  | .str s => s

/-- JS `Array.prototype.join` element rendering (null renders empty). -/
def jsJoinElem : Value → String
  | .null => ""
  | v => jsString v

/-- `.replace(/[_-]/g, ' ')`. -/
def replaceUnderscoreHyphen (cs : List Char) : List Char :=
  cs.map (fun c => if c = '_' ∨ c = '-' then ' ' else c)

/-- `.replace(/([a-z])([A-Z])/g, '$1 $2')`: insert a space at each
lower-to-upper boundary (matches cannot overlap since `$2` is uppercase). -/
def camelSplit : List Char → List Char
  | a :: b :: rest =>
    if a.isLower ∧ b.isUpper then a :: ' ' :: camelSplit (b :: rest)
    else a :: camelSplit (b :: rest)
  | l => l

/-- `.replace(/\b\w/g, c => c.toUpperCase())`: uppercase every word character
that is not preceded by a word character (`\w` = letters, digits, `_`). -/
def capWordStarts : Bool → List Char → List Char
  | _, [] => []
  | prevW, c :: rest =>
    let isW := c.isAlphanum || c = '_'
    (if isW && !prevW then c.toUpper else c) :: capWordStarts isW rest

/-- `formatLabel` from `schema-parser.ts`: underscores/hyphens to spaces,
camelCase split, capitalize word starts, trim. -/
def formatLabel (name : String) : String :=
  trimStr (String.mk (capWordStarts false (camelSplit (replaceUnderscoreHyphen name.data))))

/-- `formatEnumLabel` from `schema-parser.ts`: underscores/hyphens to spaces,
camelCase split, trim (note: no capitalization step, unlike `formatLabel`). -/
def formatEnumLabel (value : String) : String :=
  trimStr (String.mk (camelSplit (replaceUnderscoreHyphen value.data)))

/-! ### Composite-schema resolution (`resolveCompositeSchema`) -/

/-- JS spread `{...base, ...ov}` on schema nodes: each key present on `ov`
overrides `base`. -/
def spreadOver (base ov : JSONSchema) : JSONSchema := .mk {
  type := ov.f.type <|> base.f.type
  title := ov.f.title <|> base.f.title
  description := ov.f.description <|> base.f.description
  default := ov.f.default <|> base.f.default
  enum := ov.f.enum <|> base.f.enum
  const := ov.f.const <|> base.f.const
  minimum := ov.f.minimum <|> base.f.minimum
  maximum := ov.f.maximum <|> base.f.maximum
  minLength := ov.f.minLength <|> base.f.minLength
  maxLength := ov.f.maxLength <|> base.f.maxLength
  format := ov.f.format <|> base.f.format
  xOrder := ov.f.xOrder <|> base.f.xOrder
  items := ov.f.items <|> base.f.items
  properties := ov.f.properties <|> base.f.properties
  required := ov.f.required <|> base.f.required
  allOf := ov.f.allOf <|> base.f.allOf
  anyOf := ov.f.anyOf <|> base.f.anyOf
  oneOf := ov.f.oneOf <|> base.f.oneOf }

/-- One step of the `allOf` reduce:
`(acc, sub) => ({...acc, ...sub, enum: acc.enum || sub.enum})`
(a present `enum` array, even empty, is truthy in JS, so `acc`'s wins). -/
def allOfStep (acc sub : JSONSchema) : JSONSchema :=
  let m := spreadOver acc sub
  .mk { m.f with enum := acc.f.enum <|> sub.f.enum }

/-- `{..., anyOf: undefined, oneOf: undefined}`. -/
def clearComb (s : JSONSchema) : JSONSchema :=
  .mk { s.f with anyOf := none, oneOf := none }

/-- `const compositeArray = schema.anyOf || schema.oneOf` (a present `anyOf`,
even an empty array, is truthy and shadows `oneOf`). -/
def compositeArr (s : JSONSchema) : Option (List JSONSchema) :=
  s.f.anyOf <|> s.f.oneOf

/-- The branch predicate `s => s.enum && s.enum.length > 0`. -/
def enumNonEmptyB (s : JSONSchema) : Bool :=
  !(s.f.enum.getD []).isEmpty

/-- `resolveCompositeSchema` from `schema-parser.ts`: merge `allOf`;
else adopt the first non-empty-`enum` branch of `anyOf`/`oneOf`; else
synthesize a string enum from two or more `const` branches; else merge the
first non-`null`-typed branch; else merge the first branch. -/
def resolveCompositeSchema (schema : JSONSchema) : JSONSchema :=
  if !(schema.f.allOf.getD []).isEmpty then
    (schema.f.allOf.getD []).foldl allOfStep (JSONSchema.mk { schema.f with allOf := none })
  else
    match compositeArr schema with
    | some (s0 :: rest) =>
      let l := s0 :: rest
      match l.find? enumNonEmptyB with
      | some enumSubSchema => clearComb (spreadOver schema enumSubSchema)
      | none =>
        let constValues := l.filterMap (fun s => s.f.const)
        if constValues.length > 1 then
          JSONSchema.mk { schema.f with
            enum := some constValues,
            type := some "string",
            anyOf := none,
            oneOf := none }
        else
          match l.find? (fun s => !(s.f.type == some "null")) with
          | some firstNonNull => clearComb (spreadOver schema firstNonNull)
          | none => clearComb (spreadOver schema s0)
    | _ => schema

/-! ### Kind determination and per-field synthesis -/

/-- `isFileField` from `schema-parser.ts`. -/
def fileKeywords : List String :=
  ["image", "file", "upload", "audio", "video", "photo", "picture"]

/-- A media keyword occurs in the lowercased description or title. -/
def isFileField (s : JSONSchema) : Bool :=
  let description := toLowerStr (s.f.description.getD "")
  let title := toLowerStr (s.f.title.getD "")
  fileKeywords.any (fun keyword =>
    containsSub description keyword || containsSub title keyword)

/-- The textarea keyword list from `isTextAreaField`. -/
def textareaKeywords : List String :=
  ["prompt", "text", "message", "content", "description", "caption", "negative"]

/-- `isTextAreaField` from `schema-parser.ts`.  Note: the source binds the
TITLE to a local variable called `name`; the property key is not consulted.
`schema.maxLength && schema.maxLength > 200`: 0/absent is falsy. -/
def isTextAreaField (s : JSONSchema) : Bool :=
  let name := toLowerStr (s.f.title.getD "")
  let description := toLowerStr (s.f.description.getD "")
  if s.f.maxLength.getD 0 > 200 then true
  else textareaKeywords.any (fun keyword =>
    containsSub name keyword || containsSub description keyword)

/-- `Math.round`: round half toward positive infinity. -/
def roundJs (q : ℚ) : ℤ := ⌊q + 1/2⌋

/-- `determineStep` from `schema-parser.ts`. -/
def determineStep (s : JSONSchema) : ℚ :=
  if s.f.type = some "integer" then 1
  else
    match s.f.minimum, s.f.maximum with
    | some mn, some mx =>
      let range := mx - mn
      if range ≤ 1 then 1/100
      else if range ≤ 10 then 1/10
      else if range ≤ 100 then 1
      else (roundJs (range / 100) : ℚ)
    | _, _ => 1/10

/-- `determineFileAccept` from `schema-parser.ts`. -/
def determineFileAccept (name : String) (s : JSONSchema) : String :=
  let combined := toLowerStr (name ++ " " ++ s.f.description.getD "" ++ " " ++ s.f.title.getD "")
  if containsSub combined "audio" || containsSub combined "sound" || containsSub combined "music" then
    "audio/*"
  else if containsSub combined "video" || containsSub combined "movie" then
    "video/*"
  else if containsSub combined "image" || containsSub combined "photo" || containsSub combined "picture" then
    "image/*"
  else
    "image/*,video/*,audio/*"

/-- `determineFieldType` from `schema-parser.ts` (first match wins: enum,
uri-file, then by `type`, else infer from the runtime type of `default`). -/
def determineFieldType (s : JSONSchema) : FormFieldType :=
  if !(s.f.enum.getD []).isEmpty then .select
  else if (s.f.format == some "uri") && isFileField s then .file
  else
    match s.f.type with
    | some "integer" => if s.f.minimum.isSome && s.f.maximum.isSome then .slider else .number
    | some "number" => if s.f.minimum.isSome && s.f.maximum.isSome then .slider else .number
    | some "boolean" => .boolean
    | some "string" =>
      if isTextAreaField s then .textarea
      else if s.f.format == some "uri" then .file
      else .text
    | some "array" => .array
    | some "object" => .json
    | _ =>
      match s.f.default with
      | some (Value.bool _) => .boolean
      | some (Value.num _) => .number
      | _ => .text

/-- `parseProperty` from `schema-parser.ts`.  The source's return type admits
`null` but every branch of the body returns a field object. -/
def parseProperty (name : String) (schema : JSONSchema) (required : Bool) :
    Option FormField :=
  let r := resolveCompositeSchema schema
  -- `formatLabel(resolvedSchema.title || name)`: an empty title is falsy
  let label := formatLabel (match r.f.title with
    | some t => if t = "" then name else t
    | none => name)
  let base : FormField := {
    name := name, label := label, description := r.f.description,
    required := required, default := r.f.default, order := r.f.xOrder,
    schema := r, type := FormFieldType.text }
  some (match determineFieldType r with
  | .select =>
    { base with
      type := .select,
      options := (r.f.enum.getD []).map (fun v => ⟨formatEnumLabel (jsString v), v⟩) }
  | .slider =>
    { base with
      type := .slider,
      min := some (r.f.minimum.getD 0),
      max := some (r.f.maximum.getD 100),
      step := some (determineStep r) }
  | .number =>
    { base with
      type := .number,
      min := r.f.minimum,
      max := r.f.maximum,
      step := some (determineStep r) }
  | .boolean =>
    { base with
      type := .boolean,
      default := some (r.f.default.getD (Value.bool false)) }
  | .file =>
    { base with type := .file, accept := some (determineFileAccept name r) }
  | .textarea => { base with type := .textarea }
  | .array => { base with type := .array }
  | .json => { base with type := .json }
  | .text => { base with type := .text })

/-! ### Stable sort by a JS numeric comparator -/

/-- Insert `x` before the first element the comparator orders it strictly
before (`c x y < 0`); ties keep the existing element first (stability). -/
def insertCmp {α β : Type} [LinearOrder β] [Zero β] (c : α → α → β) (x : α) :
    List α → List α
  | [] => [x]
  | y :: ys => if c x y < 0 then x :: y :: ys else y :: insertCmp c x ys

/-- Stable sort by a JS-style numeric comparator (see the header comment). -/
def sortByCmp {α β : Type} [LinearOrder β] [Zero β] (c : α → α → β)
    (l : List α) : List α :=
  l.foldl (fun acc x => insertCmp c x acc) []

/-! ### Top-level schema parse -/

/-- The sort key of the field comparator `(a.order ?? 999) - (b.order ?? 999)`. -/
def fieldOrderKey (f : FormField) : ℚ := f.order.getD 999

/-- The per-property loop of `parseInputSchema` (skip null property nodes,
collect the parsed fields in property order). -/
def collectFields (props : List (String × Option JSONSchema))
    (required : List String) : List FormField :=
  props.filterMap (fun p =>
    match p.2 with
    | none => none
    | some ps => parseProperty p.1 ps (required.contains p.1))

/-- `parseInputSchema` from `schema-parser.ts`. -/
def parseInputSchema : Option JSONSchema → List FormField
  | none => []
  | some s =>
    match s.f.properties with
    | none => []
    | some props =>
      sortByCmp (fun a b => fieldOrderKey a - fieldOrderKey b)
        (collectFields props (s.f.required.getD []))

/-! ### Validation -/

/-- The `{valid, errors}` result of `validateInput`. -/
structure ValidationResult where
  valid : Bool
  errors : List String
deriving DecidableEq, Repr

/-- `validateInput` from `schema-parser.ts`: required-field errors first, then
enum/numeric/string-length constraint errors in property order; `valid` is
`errors.length === 0`. -/
def validateInput (input : List (String × Value)) (schema : Option JSONSchema) :
    ValidationResult :=
  match schema with
  | none => ⟨true, []⟩
  | some s =>
    match s.f.properties with
    | none => ⟨true, []⟩
    | some props =>
      -- `new Set(schema.required || [])`, iterated in insertion order
      let required := (s.f.required.getD []).eraseDups
      let reqErrors := required.filterMap (fun field =>
        match input.lookup field with
        | none => some (formatLabel field ++ " is required")
        | some Value.null => some (formatLabel field ++ " is required")
        | some (Value.str "") => some (formatLabel field ++ " is required")
        | some _ => none)
      let propErrors := props.foldl (fun acc p =>
        match p.2 with
        | none => acc
        | some ps =>
          match input.lookup p.1 with
          | none => acc
          | some Value.null => acc
          | some v =>
            let e1 := match ps.f.enum with
              | some l =>
                if v ∈ l then []
                else [formatLabel p.1 ++ " must be one of: " ++
                      String.intercalate ", " (l.map jsJoinElem)]
              | none => []
            let e2 := match v with
              | Value.num x =>
                (match ps.f.minimum with
                 | some mn => if x < mn then
                     [formatLabel p.1 ++ " must be at least " ++ jsString (Value.num mn)]
                   else []
                 | none => []) ++
                (match ps.f.maximum with
                 | some mx => if x > mx then
                     [formatLabel p.1 ++ " must be at most " ++ jsString (Value.num mx)]
                   else []
                 | none => [])
              | _ => []
            let e3 := match v with
              | Value.str str =>
                (match ps.f.minLength with
                 | some mn => if str.length < mn then
                     [formatLabel p.1 ++ " must be at least " ++ toString mn ++ " characters"]
                   else []
                 | none => []) ++
                (match ps.f.maxLength with
                 | some mx => if str.length > mx then
                     [formatLabel p.1 ++ " must be at most " ++ toString mx ++ " characters"]
                   else []
                 | none => [])
              | _ => []
            acc ++ e1 ++ e2 ++ e3) []
      let errors := reqErrors ++ propErrors
      ⟨errors.isEmpty, errors⟩

/-! ### Model ranking (`calculateModelScore`, `rankModels`, `searchAndRankModels`) -/

/-- The latest version of a model; `created_at` is the epoch-millisecond
timestamp `new Date(created_at).getTime()` of its creation date (`none` for an
absent or unparseable — `NaN`, all comparisons false — timestamp). -/
structure ModelVersion where
  created_at : Option ℝ := none

/-- A model metadata record (the fields the ranking engine reads). -/
structure Model where
  owner : String
  name : String
  description : Option String := none
  run_count : Option ℕ := none
  cover_image_url : Option String := none
  latest_version : Option ModelVersion := none

/-- The fixed allow-list of verified publishing accounts. -/
def VERIFIED_OWNERS : List String :=
  ["stability-ai", "black-forest-labs", "meta", "openai", "anthropic",
   "google", "bytedance", "tencent", "alibaba", "microsoft", "nvidia",
   "salesforce", "huggingface", "deepmind", "together", "mistralai",
   "replicate", "zsxkib", "lucataco", "cjwbw"]

/-- `calculateModelScore`: log-scaled run count, verified-owner boost,
recency boost, cover-image and description bonuses.  `Date.now()` is passed
in as `now` (epoch milliseconds). -/
noncomputable def calculateModelScore (now : ℝ) (model : Model) : ℝ :=
  let runCount := model.run_count.getD 0
  let s1 : ℝ := if runCount > 0 then Real.logb 10 ((runCount : ℝ) + 1) * 5 else 0
  let s2 : ℝ := if VERIFIED_OWNERS.contains (toLowerStr model.owner) then 15 else 0
  let s3 : ℝ :=
    match model.latest_version with
    | some v =>
      match v.created_at with
      | some updatedAt =>
        let daysSinceUpdate := (now - updatedAt) / (1000 * 60 * 60 * 24)
        if daysSinceUpdate < 7 then 5
        else if daysSinceUpdate < 30 then 3
        else if daysSinceUpdate < 90 then 1
        else 0
      | none => 0
    | none => 0
  let s4 : ℝ :=
    match model.cover_image_url with
    | some u => if u = "" then 0 else 2  -- JS truthiness: empty string is falsy
    | none => 0
  let s5 : ℝ :=
    match model.description with
    | some d => if d.length > 20 then 1 else 0
    | none => 0
  s1 + s2 + s3 + s4 + s5

/-- The `rankModels` comparator: score descending, ties by raw run count
descending. -/
noncomputable def rankCmp (now : ℝ) (a b : Model) : ℝ :=
  let scoreA := calculateModelScore now a
  let scoreB := calculateModelScore now b
  if scoreB ≠ scoreA then scoreB - scoreA
  else ((b.run_count.getD 0 : ℕ) : ℝ) - ((a.run_count.getD 0 : ℕ) : ℝ)

/-- `rankModels`: sort a copy of the list by quality score descending. -/
noncomputable def rankModels (now : ℝ) (models : List Model) : List Model :=
  sortByCmp (rankCmp now) models

/-- Phase 1 of `searchAndRankModels`: the relevance score of one model for the
lowercased trimmed query (assignments for name matches, then raise-only
`Math.max` updates for owner and description matches). -/
def relevanceOf (q : String) (model : Model) : ℚ :=
  let name := toLowerStr model.name
  let owner := toLowerStr model.owner
  let desc := toLowerStr (model.description.getD "")
  let r0 : ℚ :=
    if name = q then 100
    else if q.data.isPrefixOf name.data then 80
    else if containsSub name q then 60
    else 0
  let r1 : ℚ :=
    if owner = q then max r0 90
    else if containsSub owner q then max r0 40
    else r0
  if containsSub desc q then max r1 20 else r1

/-- Phase 2 comparator of `searchAndRankModels`: a relevance gap of at least
20 orders by relevance descending, otherwise by quality score descending. -/
noncomputable def searchCmp (now : ℝ) (a b : Model × ℚ) : ℝ :=
  if |a.2 - b.2| ≥ 20 then ((b.2 - a.2 : ℚ) : ℝ)
  else calculateModelScore now b.1 - calculateModelScore now a.1

/-- `searchAndRankModels`: an empty trimmed query short-circuits to
`rankModels`; otherwise score relevance, drop zero-relevance models, and sort
with `searchCmp`. -/
noncomputable def searchAndRankModels (now : ℝ) (models : List Model)
    (query : String) : List Model :=
  if trimStr query = "" then rankModels now models
  else
    let q := trimStr (toLowerStr query)
    let scored := models.map (fun m => (m, relevanceOf q m))
    let matching := scored.filter (fun sc => sc.2 > 0)
    (sortByCmp (searchCmp now) matching).map (fun sc => sc.1)

/-! ### Helper lemmas -/

theorem mem_insertCmp {α β : Type} [LinearOrder β] [Zero β] {c : α → α → β}
    {x a : α} {l : List α} : a ∈ insertCmp c x l ↔ a = x ∨ a ∈ l := by
  induction l with
  | nil => simp [insertCmp]
  | cons y ys ih =>
    simp only [insertCmp]
    split
    · simp
    · simp only [List.mem_cons, ih]
      tauto

theorem insertCmp_perm {α β : Type} [LinearOrder β] [Zero β] (c : α → α → β)
    (x : α) (l : List α) : List.Perm (insertCmp c x l) (x :: l) := by
  induction l with
  | nil => exact List.Perm.refl _
  | cons y ys ih =>
    simp only [insertCmp]
    split
    · exact List.Perm.refl _
    · exact (ih.cons y).trans (List.Perm.swap x y ys)

theorem foldl_insertCmp_perm {α β : Type} [LinearOrder β] [Zero β]
    (c : α → α → β) (l acc : List α) :
    List.Perm (l.foldl (fun a x => insertCmp c x a) acc) (acc ++ l) := by
  induction l generalizing acc with
  | nil => simp
  | cons x xs ih =>
    simp only [List.foldl_cons]
    refine ((ih (insertCmp c x acc)).trans ?_)
    refine (((insertCmp_perm c x acc).append_right xs).trans ?_)
    exact List.perm_middle.symm

theorem sortByCmp_perm {α β : Type} [LinearOrder β] [Zero β] (c : α → α → β)
    (l : List α) : List.Perm (sortByCmp c l) l := by
  simpa [sortByCmp] using foldl_insertCmp_perm c l []

theorem insertCmp_key_sorted {α : Type} (k : α → ℚ) (x : α) {l : List α}
    (hl : l.Pairwise (fun a b => k a ≤ k b)) :
    (insertCmp (fun a b => k a - k b) x l).Pairwise (fun a b => k a ≤ k b) := by
  induction l with
  | nil => simp [insertCmp]
  | cons y ys ih =>
    rcases List.pairwise_cons.1 hl with ⟨hy, hys⟩
    simp only [insertCmp]
    split
    · rename_i h
      have hxy : k x < k y := sub_neg.mp h
      refine List.pairwise_cons.2 ⟨?_, hl⟩
      intro z hz
      rcases List.mem_cons.1 hz with rfl | hz'
      · exact hxy.le
      · exact hxy.le.trans (hy z hz')
    · rename_i h
      have hyx : k y ≤ k x := sub_nonneg.mp (not_lt.1 h)
      refine List.pairwise_cons.2 ⟨?_, ih hys⟩
      intro z hz
      rcases mem_insertCmp.1 hz with rfl | hz'
      · exact hyx
      · exact hy z hz'

theorem sortByCmp_key_sorted {α : Type} (k : α → ℚ) (l : List α) :
    (sortByCmp (fun a b => k a - k b) l).Pairwise (fun a b => k a ≤ k b) := by
  suffices h : ∀ acc : List α, acc.Pairwise (fun a b => k a ≤ k b) →
      (l.foldl (fun a x => insertCmp (fun a b => k a - k b) x a) acc).Pairwise
        (fun a b => k a ≤ k b) by
    exact h [] (List.Pairwise.nil)
  induction l with
  | nil => intro acc hacc; simpa using hacc
  | cons x xs ih =>
    intro acc hacc
    simp only [List.foldl_cons]
    exact ih _ (insertCmp_key_sorted k x hacc)

theorem mem_eraseDups_loop {a : String} (as : List String) (bs : List String)
    (h : a ∈ as ∨ a ∈ bs) : a ∈ List.eraseDups.loop as bs := by
  induction as generalizing bs with
  | nil =>
    rcases h with h | h
    · cases h
    · simpa [List.eraseDups.loop] using h
  | cons x xs ih =>
    unfold List.eraseDups.loop
    cases hel : bs.elem x with
    | true =>
      refine ih bs ?_
      rcases h with h | h
      · rcases List.mem_cons.1 h with rfl | h'
        · exact Or.inr (List.mem_of_elem_eq_true hel)
        · exact Or.inl h'
      · exact Or.inr h
    | false =>
      refine ih (x :: bs) ?_
      rcases h with h | h
      · rcases List.mem_cons.1 h with rfl | h'
        · exact Or.inr (List.mem_cons_self _ _)
        · exact Or.inl h'
      · exact Or.inr (List.mem_cons_of_mem _ h)

theorem mem_eraseDups {a : String} {l : List String} (h : a ∈ l) :
    a ∈ l.eraseDups :=
  mem_eraseDups_loop l [] (Or.inl h)

theorem resolve_no_comb (s : JSONSchema) (hAll : s.f.allOf.getD [] = [])
    (hco : (compositeArr s).getD [] = []) : resolveCompositeSchema s = s := by
  unfold resolveCompositeSchema
  rw [hAll]
  simp only [List.isEmpty_nil, Bool.not_true, Bool.false_eq_true, if_false]
  cases hc : compositeArr s with
  | none => rfl
  | some l =>
    cases l with
    | nil => rfl
    | cons x xs => rw [hc] at hco; simp at hco

theorem resolve_enum_branch (s b : JSONSchema) (l : List JSONSchema)
    (hAll : s.f.allOf.getD [] = []) (hc : compositeArr s = some l)
    (hf : l.find? enumNonEmptyB = some b) :
    resolveCompositeSchema s = clearComb (spreadOver s b) := by
  unfold resolveCompositeSchema
  rw [hAll]
  simp only [List.isEmpty_nil, Bool.not_true, Bool.false_eq_true, if_false]
  cases l with
  | nil => simp at hf
  | cons x xs =>
    rw [hc]
    simp only []
    rw [hf]

theorem resolve_const_union (s : JSONSchema) (l : List JSONSchema)
    (hAll : s.f.allOf.getD [] = []) (hc : compositeArr s = some l)
    (hfnone : l.find? enumNonEmptyB = none)
    (hlen : 1 < (l.filterMap (fun t => t.f.const)).length) :
    resolveCompositeSchema s = JSONSchema.mk { s.f with
      enum := some (l.filterMap (fun t => t.f.const)),
      type := some "string",
      anyOf := none,
      oneOf := none } := by
  unfold resolveCompositeSchema
  rw [hAll]
  simp only [List.isEmpty_nil, Bool.not_true, Bool.false_eq_true, if_false]
  cases l with
  | nil => simp at hlen
  | cons x xs =>
    rw [hc]
    simp only []
    rw [hfnone]
    simp only [hlen, if_true]

theorem parseProperty_select (nm : String) (s : JSONSchema) (rq : Bool)
    (es : List Value) (h : (resolveCompositeSchema s).f.enum = some es)
    (hne : es ≠ []) :
    (parseProperty nm s rq).map FormField.type = some FormFieldType.select ∧
    (parseProperty nm s rq).map (fun f => f.options.map Choice.value) = some es ∧
    (parseProperty nm s rq).map (fun f => f.options.map Choice.label) =
      some (es.map (fun v => formatEnumLabel (jsString v))) ∧
    (parseProperty nm s rq).map (fun f => f.options.length) = some es.length := by
  have hdt : determineFieldType (resolveCompositeSchema s) = .select := by
    unfold determineFieldType
    rw [h]
    simp [hne]
  have hval : ∀ vs : List Value,
      (vs.map (fun v => (⟨formatEnumLabel (jsString v), v⟩ : Choice))).map Choice.value = vs := by
    intro vs
    induction vs with
    | nil => rfl
    | cons v vs ih => simp [ih]
  simp only [parseProperty, hdt]
  refine ⟨rfl, ?_, ?_, ?_⟩ <;> simp [h, hval]

/-! ### C1: enum and nullable-enum resolution -/

/-- C1 (amended): for a property node with no (non-empty) `allOf`, if either
the node directly carries a non-empty `enum` and has no effective
`anyOf`/`oneOf` list, or its effective combinator list (`anyOf` when present,
else `oneOf`) has a first enum-bearing branch `b` with non-empty enum `es`,
then field synthesis returns a single-choice (select) descriptor whose
choices carry exactly the values of `es`, in order (so in particular
`choices.length = es.length`). -/
theorem c1_enum_resolution_single_choice (nm : String) (rq : Bool)
    (s b : JSONSchema) (es : List Value)
    (hAll : s.f.allOf.getD [] = [])
    (h : ((compositeArr s).getD [] = [] ∧ s.f.enum = some es) ∨
         (∃ l, compositeArr s = some l ∧ l.find? enumNonEmptyB = some b ∧
           b.f.enum = some es))
    (hne : es ≠ []) :
    (parseProperty nm s rq).map FormField.type = some FormFieldType.select ∧
    (parseProperty nm s rq).map (fun f => f.options.map Choice.value) = some es ∧
    (parseProperty nm s rq).map (fun f => f.options.length) = some es.length := by
  rcases h with ⟨hco, hen⟩ | ⟨l, hc, hf, hben⟩
  · have hr := resolve_no_comb s hAll hco
    have hsel := parseProperty_select nm s rq es (by rw [hr]; exact hen) hne
    exact ⟨hsel.1, hsel.2.1, hsel.2.2.2⟩
  · have hr := resolve_enum_branch s b l hAll hc hf
    have henr : (resolveCompositeSchema s).f.enum = some es := by
      rw [hr]
      show (b.f.enum <|> s.f.enum) = some es
      rw [hben]
      rfl
    have hsel := parseProperty_select nm s rq es henr hne
    exact ⟨hsel.1, hsel.2.1, hsel.2.2.2⟩

/-- The enum-bearing branch of the nullable-enum witness. -/
def c1wEnumBranch : JSONSchema := .mk { enum := some [.str "jpg", .str "png"] }

/-- A nullable-enum node: `anyOf: [{enum:[...]}, {type:"null"}]`. -/
def c1wNullable : JSONSchema :=
  .mk { anyOf := some [c1wEnumBranch, .mk { type := some "null" }] }

/-- Witness for C1 at the nullable-enum pattern. -/
theorem c1_enum_resolution_single_choice_witness :
    (parseProperty "output_format" c1wNullable false).map FormField.type =
      some FormFieldType.select ∧
    (parseProperty "output_format" c1wNullable false).map
      (fun f => f.options.map Choice.value) = some [Value.str "jpg", Value.str "png"] ∧
    (parseProperty "output_format" c1wNullable false).map
      (fun f => f.options.length) = some 2 :=
  c1_enum_resolution_single_choice "output_format" false c1wNullable c1wEnumBranch
    [Value.str "jpg", Value.str "png"] rfl
    (Or.inr ⟨[c1wEnumBranch, .mk { type := some "null" }], rfl, rfl, rfl⟩)
    (by simp)

/-- A node whose `anyOf` holds an enum-bearing branch but that also carries a
non-empty `allOf`. -/
def c1Cex : JSONSchema := .mk {
  allOf := some [.mk { type := some "string" }],
  anyOf := some [.mk { enum := some [.str "a", .str "b"] }] }

/-- C1 counterexample: this node's `anyOf` list contains an enum-bearing
branch (so the claim demands a single-choice descriptor with two choices),
but synthesis returns a plain text field, because the `allOf` merge runs
first and never examines `anyOf`. -/
theorem c1_counterexample_allof_shadows_enum :
    ((c1Cex.f.anyOf.getD []).find? enumNonEmptyB).isSome = true ∧
    (parseProperty "x" c1Cex false).map FormField.type = some FormFieldType.text := by
  exact ⟨rfl, rfl⟩

/-! ### C2: const-union resolution -/

/-- C2 (amended): for a property node with no (non-empty) `allOf` whose
effective combinator list (`anyOf` when present, else `oneOf`) has no
enum-bearing branch and two or more `const`-bearing branches, composite
resolution synthesizes `enum := the const values in branch order` with
`type := "string"`, and field synthesis returns a single-choice descriptor
with exactly one choice per `const`-bearing branch, in branch order. -/
theorem c2_const_union_single_choice (nm : String) (rq : Bool)
    (s : JSONSchema) (l : List JSONSchema)
    (hAll : s.f.allOf.getD [] = [])
    (hc : compositeArr s = some l)
    (hnoenum : l.find? enumNonEmptyB = none)
    (hlen : 1 < (l.filterMap (fun t => t.f.const)).length) :
    (resolveCompositeSchema s).f.enum = some (l.filterMap (fun t => t.f.const)) ∧
    (resolveCompositeSchema s).f.type = some "string" ∧
    (parseProperty nm s rq).map FormField.type = some FormFieldType.select ∧
    (parseProperty nm s rq).map (fun f => f.options.map Choice.value) =
      some (l.filterMap (fun t => t.f.const)) ∧
    (parseProperty nm s rq).map (fun f => f.options.length) =
      some (l.filterMap (fun t => t.f.const)).length := by
  have hr := resolve_const_union s l hAll hc hnoenum hlen
  have hen : (resolveCompositeSchema s).f.enum =
      some (l.filterMap (fun t => t.f.const)) := by rw [hr]; rfl
  have hty : (resolveCompositeSchema s).f.type = some "string" := by rw [hr]; rfl
  have hne : (l.filterMap (fun t => t.f.const)) ≠ [] := by
    intro h0
    rw [h0] at hlen
    simp at hlen
  have hsel := parseProperty_select nm s rq _ hen hne
  exact ⟨hen, hty, hsel.1, hsel.2.1, hsel.2.2.2⟩

/-- A nullable const-union node:
`anyOf: [{const:"webp"}, {const:"png"}, {type:"null"}]`. -/
def c2w : JSONSchema := .mk { anyOf := some [
  .mk { const := some (.str "webp") },
  .mk { const := some (.str "png") },
  .mk { type := some "null" }] }

/-- Witness for C2 at a nullable const-union. -/
theorem c2_const_union_single_choice_witness :
    (resolveCompositeSchema c2w).f.enum = some [Value.str "webp", Value.str "png"] ∧
    (resolveCompositeSchema c2w).f.type = some "string" ∧
    (parseProperty "fmt" c2w false).map FormField.type = some FormFieldType.select ∧
    (parseProperty "fmt" c2w false).map (fun f => f.options.map Choice.value) =
      some [Value.str "webp", Value.str "png"] ∧
    (parseProperty "fmt" c2w false).map (fun f => f.options.length) = some 2 :=
  c2_const_union_single_choice "fmt" false c2w
    [.mk { const := some (.str "webp") }, .mk { const := some (.str "png") },
     .mk { type := some "null" }]
    rfl rfl rfl (by decide)

/-- A node whose `anyOf` holds two const branches but that also carries a
non-empty `allOf`. -/
def c2Cex : JSONSchema := .mk {
  allOf := some [.mk { type := some "string" }],
  anyOf := some [.mk { const := some (.str "w") }, .mk { const := some (.str "p") }] }

/-- C2 counterexample: this node's `anyOf` list contains two const-bearing
branches and no enum-bearing branch (so the claim demands a single-choice
descriptor with two choices), but synthesis returns a plain text field,
because the `allOf` merge runs first and never examines `anyOf`. -/
theorem c2_counterexample_allof_shadows_const_union :
    ((c2Cex.f.anyOf.getD []).filterMap (fun t => t.f.const)).length = 2 ∧
    (c2Cex.f.anyOf.getD []).find? enumNonEmptyB = none ∧
    (parseProperty "x" c2Cex false).map FormField.type = some FormFieldType.text :=
  ⟨rfl, rfl, rfl⟩

/-! ### C3: search ordering -/

/-- C3 (amended): the comparator that `searchAndRankModels` passes to the
sort orders any two surviving candidates exactly as claimed — with a
relevance gap of at least 20 the higher-relevance candidate is ordered
first regardless of quality, and with a smaller gap the higher-quality
candidate is ordered first.  The sorted output as a whole, however, need
not satisfy this property pairwise, because the comparator is not
transitive (see the counterexample). -/
theorem c3_search_comparator_gap_rule (now : ℝ) (a b : Model × ℚ) :
    (20 ≤ |a.2 - b.2| → (searchCmp now a b < 0 ↔ b.2 < a.2)) ∧
    (|a.2 - b.2| < 20 → (searchCmp now a b < 0 ↔
      calculateModelScore now b.1 < calculateModelScore now a.1)) := by
  constructor
  · intro h
    unfold searchCmp
    rw [if_pos h, show ((0:ℝ) = ((0:ℚ):ℝ)) from by norm_num, Rat.cast_lt]
    exact sub_neg
  · intro h
    unfold searchCmp
    rw [if_neg (not_le.mpr h)]
    exact sub_neg

/-- Witness for C3's gap branch: relevance 100 versus 20. -/
theorem c3_search_comparator_gap_rule_witness :
    searchCmp 0 ({ owner := "a", name := "x" }, (100:ℚ))
        ({ owner := "b", name := "y" }, (20:ℚ)) < 0 ↔ (20:ℚ) < 100 :=
  (c3_search_comparator_gap_rule 0 ({ owner := "a", name := "x" }, 100)
    ({ owner := "b", name := "y" }, 20)).1 (by norm_num)

/-- Exact-name match for the query "flux": relevance 100, quality score 0. -/
def mA : Model := { owner := "alice", name := "flux" }

/-- Owner equals the query: relevance 90, quality score 2 (cover image). -/
def mB : Model := { owner := "flux", name := "imagegen",
                    cover_image_url := some "cover.png" }

/-- Name starts with the query: relevance 80, quality score 3 (cover image
and a description longer than 20 characters). -/
def mC : Model := { owner := "bob", name := "fluxx",
                    cover_image_url := some "cover.png",
                    description := some "a very nice picture maker" }

theorem scoreA : calculateModelScore 0 mA = 0 := by
  unfold calculateModelScore mA
  rw [show VERIFIED_OWNERS.contains (toLowerStr "alice") = false from by decide]
  norm_num

theorem scoreB : calculateModelScore 0 mB = 2 := by
  unfold calculateModelScore mB
  rw [show VERIFIED_OWNERS.contains (toLowerStr "flux") = false from by decide]
  norm_num
  decide

theorem scoreC : calculateModelScore 0 mC = 3 := by
  unfold calculateModelScore mC
  rw [show VERIFIED_OWNERS.contains (toLowerStr "bob") = false from by decide]
  norm_num
  rw [if_neg (show ¬(("cover.png" : String) = "") from by decide),
      if_pos (show 20 < "a very nice picture maker".length from by decide)]
  norm_num

theorem cmpBA : searchCmp 0 (mB, (90:ℚ)) (mA, (100:ℚ)) < 0 := by
  unfold searchCmp
  rw [if_neg (show ¬((20:ℚ) ≤ |(90:ℚ) - 100|) from by norm_num)]
  show calculateModelScore 0 mA - calculateModelScore 0 mB < 0
  rw [scoreA, scoreB]
  norm_num

theorem cmpCB : searchCmp 0 (mC, (80:ℚ)) (mB, (90:ℚ)) < 0 := by
  unfold searchCmp
  rw [if_neg (show ¬((20:ℚ) ≤ |(80:ℚ) - 90|) from by norm_num)]
  show calculateModelScore 0 mB - calculateModelScore 0 mC < 0
  rw [scoreB, scoreC]
  norm_num

/-- C3 counterexample: on the query "flux" with the three models above, every
pairwise requirement of the claim cannot hold at once (relevances 100/90/80,
qualities 0/2/3 give a preference cycle), and the actual output lists the
relevance-80 model first and the relevance-100 model last even though their
gap is exactly 20 — so the higher-relevance model does not precede. -/
theorem c3_counterexample_intransitive_ordering :
    (searchAndRankModels 0 [mA, mB, mC] "flux").map Model.name =
      ["fluxx", "imagegen", "flux"] ∧
    relevanceOf "flux" mA = 100 ∧ relevanceOf "flux" mC = 80 ∧
    mA.name = "flux" ∧ mC.name = "fluxx" := by
  refine ⟨?_, by decide, by decide, rfl, rfl⟩
  unfold searchAndRankModels
  rw [if_neg (show ¬(trimStr "flux" = "") from by decide)]
  dsimp only
  have hmatch : (([mA, mB, mC].map
      (fun m => (m, relevanceOf (trimStr (toLowerStr "flux")) m))).filter
        (fun sc => sc.2 > 0)) = [(mA, 100), (mB, 90), (mC, 80)] := rfl
  rw [hmatch]
  have h1 : insertCmp (searchCmp 0) (mA, (100:ℚ)) [] = [(mA, 100)] := rfl
  have h2 : insertCmp (searchCmp 0) (mB, (90:ℚ)) [(mA, 100)] =
      [(mB, 90), (mA, 100)] := by
    simp only [insertCmp]
    rw [if_pos cmpBA]
  have h3 : insertCmp (searchCmp 0) (mC, (80:ℚ)) [(mB, 90), (mA, 100)] =
      [(mC, 80), (mB, 90), (mA, 100)] := by
    simp only [insertCmp]
    rw [if_pos cmpCB]
  simp only [sortByCmp, List.foldl_cons, List.foldl_nil, h1, h2, h3]
  rfl

/-! ### C4: totality and permissive degradation -/

/-- C4: schema parsing and scoring are total (every property synthesizes a
field — the embedding is a total function and the `absent` outcome never
occurs), a node with no recognizable type information — empty/absent enum, no
uri-file format hint, an unrecognized or absent `type`, and a `default` that
is neither boolean nor number — degrades to the most permissive kind (text),
and the ranking score is a well-defined nonnegative real for every model. -/
theorem c4_totality_and_text_fallback :
    (∀ (nm : String) (s : JSONSchema) (rq : Bool),
      (parseProperty nm s rq).isSome = true) ∧
    (∀ s : JSONSchema,
      s.f.enum.getD [] = [] →
      ¬(s.f.format = some "uri" ∧ isFileField s = true) →
      (∀ t, s.f.type = some t →
        t ∉ (["integer", "number", "boolean", "string", "array", "object"] : List String)) →
      (∀ b, s.f.default ≠ some (Value.bool b)) →
      (∀ q, s.f.default ≠ some (Value.num q)) →
      determineFieldType s = FormFieldType.text) ∧
    (∀ (now : ℝ) (m : Model), 0 ≤ calculateModelScore now m) := by
  refine ⟨fun nm s rq => rfl, ?_, ?_⟩
  · intro s h1 h2 h3 h4 h5
    have hb : (!(s.f.enum.getD []).isEmpty) = false := by rw [h1]; rfl
    have hff : ((s.f.format == some "uri") && isFileField s) = false := by
      by_cases hf : s.f.format = some "uri"
      · cases hfile : isFileField s with
        | true => exact absurd ⟨hf, hfile⟩ h2
        | false => simp [hfile]
      · simp [beq_iff_eq, hf]
    unfold determineFieldType
    rw [hb, hff]
    simp only [Bool.false_eq_true, if_false]
    split <;> try (rename_i heq; exact absurd (by simp) (h3 _ heq))
    all_goals rfl
  · intro now m
    unfold calculateModelScore
    dsimp only
    refine add_nonneg (add_nonneg (add_nonneg (add_nonneg ?_ ?_) ?_) ?_) ?_
    · split
      · rename_i h
        have hc : (1:ℝ) ≤ (m.run_count.getD 0 : ℝ) + 1 := by
          have := Nat.cast_nonneg (α := ℝ) (m.run_count.getD 0)
          linarith
        have hl := Real.logb_nonneg (b := 10) (by norm_num) hc
        linarith
      · exact le_refl 0
    · split <;> norm_num
    · cases m.latest_version with
      | none => exact le_refl 0
      | some v =>
        obtain ⟨ca⟩ := v
        cases ca with
        | none => exact le_refl 0
        | some t => dsimp only; split_ifs <;> norm_num
    · cases m.cover_image_url with
      | none => exact le_refl 0
      | some u => dsimp only; split <;> norm_num
    · cases m.description with
      | none => exact le_refl 0
      | some d => dsimp only; split <;> norm_num

/-- A model for the C4 witness. -/
def c4wModel : Model := { owner := "someone", name := "some-model" }

/-- Witness for C4: a node carrying only a title degrades to a text field,
parses to a present field, and an arbitrary concrete model scores at least
zero. -/
theorem c4_totality_and_text_fallback_witness :
    determineFieldType (JSONSchema.mk { title := some "Seed" }) = FormFieldType.text ∧
    (parseProperty "seed" (JSONSchema.mk { title := some "Seed" }) false).isSome = true ∧
    0 ≤ calculateModelScore 0 c4wModel :=
  ⟨c4_totality_and_text_fallback.2.1 (JSONSchema.mk { title := some "Seed" }) rfl
      (fun h => Option.noConfusion h.1) (fun _ ht => Option.noConfusion ht)
      (fun _ h => Option.noConfusion h) (fun _ h => Option.noConfusion h),
   c4_totality_and_text_fallback.1 "seed" (JSONSchema.mk { title := some "Seed" }) false,
   c4_totality_and_text_fallback.2.2 0 c4wModel⟩

/-! ### C5: validation of required fields -/

/-- The schema of the claim's concrete example:
`{required:["prompt"], properties:{prompt:{type:"string"}}}`. -/
def c5Schema : JSONSchema := .mk {
  required := some ["prompt"],
  properties := some [("prompt", some (.mk { type := some "string" }))] }

/-- C5 (amended): `validateInput` returns valid exactly when its error list
is empty; provided the schema's `properties` mapping is present (otherwise
validation short-circuits to valid — see the counterexample), every declared
required property that is absent, null, or the empty string contributes the
accumulated message `"<label> is required"`; and the claim's concrete example
evaluates exactly as stated. -/
theorem c5_required_validation :
    (∀ (input : List (String × Value)) (schema : Option JSONSchema),
      (validateInput input schema).valid = true ↔
        (validateInput input schema).errors = []) ∧
    (∀ (input : List (String × Value)) (s : JSONSchema)
      (props : List (String × Option JSONSchema)) (r : String),
      s.f.properties = some props → r ∈ s.f.required.getD [] →
      (input.lookup r = none ∨ input.lookup r = some Value.null ∨
        input.lookup r = some (Value.str "")) →
      (formatLabel r ++ " is required") ∈ (validateInput input (some s)).errors) ∧
    validateInput [] (some c5Schema) = ⟨false, ["Prompt is required"]⟩ := by
  refine ⟨?_, ?_, by decide⟩
  · intro input schema
    unfold validateInput
    cases schema with
    | none => simp
    | some s =>
      cases hp : s.f.properties with
      | none => simp [hp]
      | some props => simp [hp, List.isEmpty_iff]
  · intro input s props r hp hr hmiss
    unfold validateInput
    simp only [hp]
    refine List.mem_append_left _ ?_
    refine List.mem_filterMap.mpr ⟨r, mem_eraseDups hr, ?_⟩
    rcases hmiss with h | h | h <;> (rw [h]; try rfl)

/-- A schema with two required string properties, both missing from the
input. -/
def c5wSchema : JSONSchema := .mk {
  required := some ["prompt", "negative_prompt"],
  properties := some [("prompt", some (.mk { type := some "string" })),
                      ("negative_prompt", some (.mk { type := some "string" }))] }

/-- Witness for C5: the second missing required field also contributes its
message (errors accumulate), and validity coincides with error emptiness. -/
theorem c5_required_validation_witness :
    ((validateInput [] (some c5wSchema)).valid = true ↔
      (validateInput [] (some c5wSchema)).errors = []) ∧
    (formatLabel "negative_prompt" ++ " is required") ∈
      (validateInput [] (some c5wSchema)).errors :=
  ⟨c5_required_validation.1 [] (some c5wSchema),
   c5_required_validation.2.1 [] c5wSchema
     [("prompt", some (.mk { type := some "string" })),
      ("negative_prompt", some (.mk { type := some "string" }))]
     "negative_prompt" rfl (by decide) (Or.inl rfl)⟩

/-- A schema declaring a required property but carrying no `properties`
mapping. -/
def c5Cex : JSONSchema := .mk { required := some ["prompt"] }

/-- C5 counterexample: with `properties` absent the guard at the top of
`validateInput` short-circuits to `{valid:true, errors:[]}` even though the
declared required property "prompt" is missing from the (empty) input, where
the claim demands the accumulated message "Prompt is required". -/
theorem c5_counterexample_missing_properties_guard :
    c5Cex.f.required = some ["prompt"] ∧
    validateInput [] (some c5Cex) = ⟨true, []⟩ :=
  ⟨rfl, rfl⟩

/-! ### C6: field ordering -/

/-- Proof-side reformulation of `insertCmp` for a key-difference comparator,
comparing keys directly (kernel-evaluable on rationals). -/
def insertByKey {α : Type} (k : α → ℚ) (x : α) : List α → List α
  | [] => [x]
  | y :: ys => if k x < k y then x :: y :: ys else y :: insertByKey k x ys

theorem insertCmp_sub_eq_insertByKey {α : Type} (k : α → ℚ) (x : α)
    (l : List α) : insertCmp (fun a b => k a - k b) x l = insertByKey k x l := by
  induction l with
  | nil => rfl
  | cons y ys ih => simp only [insertCmp, insertByKey, sub_neg, ih]

theorem sortByCmp_sub_eq {α : Type} (k : α → ℚ) (l : List α) :
    sortByCmp (fun a b => k a - k b) l =
      l.foldl (fun acc x => insertByKey k x acc) [] := by
  unfold sortByCmp
  simp only [insertCmp_sub_eq_insertByKey]

/-- The claim's ordering example:
`[{name:"b", order:2}, {name:"a", order:1}, {name:"c"}]`. -/
def c6Example : JSONSchema := .mk {
  properties := some [("b", some (.mk { xOrder := some 2 })),
                      ("a", some (.mk { xOrder := some 1 })),
                      ("c", some (.mk {}))] }

/-- Two order-less properties after an ordered one, original order `c, d`. -/
def c6Stability : JSONSchema := .mk {
  properties := some [("b", some (.mk { xOrder := some 2 })),
                      ("c", some (.mk {})),
                      ("d", some (.mk {})),
                      ("a", some (.mk { xOrder := some 1 }))] }

/-- C6 (amended): parseInputSchema returns the synthesized fields stably
sorted ascending by the key `order ?? 999` — so order-less fields are placed
after all fields with declared order below 999 and keep their original relative
positions, but a field with declared order 999 or above sorts with or after
them (see the counterexample); the output is a permutation of the collected
fields; the claim's example parses to [a, b, c], and order-less fields c, d
keep their original relative order. -/
theorem c6_field_ordering :
    (∀ os : Option JSONSchema, (parseInputSchema os).Pairwise
      (fun a b => a.order.getD 999 ≤ b.order.getD 999)) ∧
    (∀ (s : JSONSchema) (props : List (String × Option JSONSchema)),
      s.f.properties = some props →
      List.Perm (parseInputSchema (some s))
        (collectFields props (s.f.required.getD []))) ∧
    (parseInputSchema (some c6Example)).map FormField.name = ["a", "b", "c"] ∧
    (parseInputSchema (some c6Stability)).map FormField.name = ["a", "b", "c", "d"] := by
  refine ⟨?_, ?_, ?_, ?_⟩
  · intro os
    cases os with
    | none => simp [parseInputSchema]
    | some s =>
      show (parseInputSchema (some s)).Pairwise
        (fun a b => fieldOrderKey a ≤ fieldOrderKey b)
      have he : parseInputSchema (some s) = (match s.f.properties with
        | none => []
        | some props => sortByCmp (fun a b => fieldOrderKey a - fieldOrderKey b)
            (collectFields props (s.f.required.getD []))) := rfl
      rw [he]
      cases s.f.properties with
      | none => exact List.Pairwise.nil
      | some props => exact sortByCmp_key_sorted fieldOrderKey _
  · intro s props hp
    unfold parseInputSchema
    simp only [hp]
    exact sortByCmp_perm _ _
  · show (List.map FormField.name (sortByCmp
      (fun a b => fieldOrderKey a - fieldOrderKey b)
      (collectFields [("b", some (.mk { xOrder := some 2 })),
                      ("a", some (.mk { xOrder := some 1 })),
                      ("c", some (.mk {}))] []))) = ["a", "b", "c"]
    rw [sortByCmp_sub_eq]
    rfl
  · show (List.map FormField.name (sortByCmp
      (fun a b => fieldOrderKey a - fieldOrderKey b)
      (collectFields [("b", some (.mk { xOrder := some 2 })),
                      ("c", some (.mk {})),
                      ("d", some (.mk {})),
                      ("a", some (.mk { xOrder := some 1 }))] []))) = ["a", "b", "c", "d"]
    rw [sortByCmp_sub_eq]
    rfl

/-- Witness for C6's permutation conjunct at the example schema. -/
theorem c6_field_ordering_witness :
    List.Perm (parseInputSchema (some c6Example))
      (collectFields [("b", some (.mk { xOrder := some 2 })),
                      ("a", some (.mk { xOrder := some 1 })),
                      ("c", some (.mk {}))] []) :=
  c6_field_ordering.2.1 c6Example
    [("b", some (.mk { xOrder := some 2 })),
     ("a", some (.mk { xOrder := some 1 })),
     ("c", some (.mk {}))] rfl

/-- A property with declared order 1000 next to an order-less property. -/
def c6Cex : JSONSchema := .mk {
  properties := some [("b", some (.mk { xOrder := some 1000 })),
                      ("a", some (.mk {}))] }

/-- C6 counterexample: property "b" has a declared order (1000) and "a" has
none, so the claim requires b to precede a; but the tie value for order-less
fields is 999, so the output is [a, b]. -/
theorem c6_counterexample_order_above_tie :
    (parseInputSchema (some c6Cex)).map (fun f => (f.name, f.order)) =
      [("a", none), ("b", some 1000)] := by
  show (List.map (fun f => (f.name, f.order)) (sortByCmp
    (fun a b => fieldOrderKey a - fieldOrderKey b)
    (collectFields [("b", some (.mk { xOrder := some 1000 })),
                    ("a", some (.mk {}))] []))) = [("a", none), ("b", some 1000)]
  rw [sortByCmp_sub_eq]
  rfl

/-! ### C7: textarea heuristic -/

/-- C7 (amended): for a property whose resolved node has type string, no
non-empty enum, and does not match the uri-file rule, the synthesized kind is
multiline-text (textarea) whenever `maxLength > 200` or the node's TITLE or
DESCRIPTION contains one of the textarea keywords.  The property's name is
not consulted (the source binds the title to a local variable called `name`;
see the counterexample). -/
theorem c7_textarea_rule (nm : String) (rq : Bool) (s : JSONSchema)
    (h1 : (resolveCompositeSchema s).f.enum.getD [] = [])
    (h2 : ¬((resolveCompositeSchema s).f.format = some "uri" ∧
        isFileField (resolveCompositeSchema s) = true))
    (h3 : (resolveCompositeSchema s).f.type = some "string")
    (h4 : 200 < (resolveCompositeSchema s).f.maxLength.getD 0 ∨
      ∃ k ∈ textareaKeywords,
        containsSub (toLowerStr ((resolveCompositeSchema s).f.title.getD "")) k = true ∨
        containsSub (toLowerStr ((resolveCompositeSchema s).f.description.getD "")) k = true) :
    (parseProperty nm s rq).map FormField.type = some FormFieldType.textarea := by
  set r := resolveCompositeSchema s with hr
  have hta : isTextAreaField r = true := by
    unfold isTextAreaField
    rcases h4 with h | ⟨k, hk, hc⟩
    · simp [h]
    · by_cases hm : r.f.maxLength.getD 0 > 200
      · simp [hm]
      · simp only [if_neg hm]
        refine List.any_eq_true.mpr ⟨k, hk, ?_⟩
        rcases hc with hc | hc <;> simp [hc]
  have hdt : determineFieldType r = .textarea := by
    unfold determineFieldType
    rw [show (!(r.f.enum.getD []).isEmpty) = false from by rw [h1]; rfl]
    have hff : ((r.f.format == some "uri") && isFileField r) = false := by
      by_cases hf : r.f.format = some "uri"
      · cases hfile : isFileField r with
        | true => exact absurd ⟨hf, hfile⟩ h2
        | false => simp [hfile]
      · simp [beq_iff_eq, hf]
    rw [hff]
    simp only [Bool.false_eq_true, if_false]
    rw [h3]
    simp [hta]
  simp only [parseProperty, ← hr, hdt]
  rfl

/-- A string property whose description mentions "prompt". -/
def c7w : JSONSchema := .mk { type := some "string",
                              description := some "the prompt" }

/-- Witness for C7: description keyword makes the field a textarea. -/
theorem c7_textarea_rule_witness :
    (parseProperty "style" c7w false).map FormField.type =
      some FormFieldType.textarea :=
  c7_textarea_rule "style" false c7w rfl (fun h => Option.noConfusion h.1) rfl
    (Or.inr ⟨"prompt", by decide, Or.inr (by decide)⟩)

/-- A bare string property. -/
def c7Cex : JSONSchema := .mk { type := some "string" }

/-- C7 counterexample: the property NAME "prompt" contains the keyword
"prompt", so the claim demands a multiline-text field, but synthesis returns
a plain text field — `isTextAreaField` only reads the node's title and
description, never the property name. -/
theorem c7_counterexample_property_name_not_consulted :
    containsSub (toLowerStr "prompt") "prompt" = true ∧
    (parseProperty "prompt" c7Cex false).map FormField.type =
      some FormFieldType.text :=
  ⟨rfl, rfl⟩

/-! ### C8: choice labels and values -/

theorem choiceValues_id (vs : List Value) :
    (vs.map (fun v => (⟨formatEnumLabel (jsString v), v⟩ : Choice))).map
      Choice.value = vs := by
  induction vs with
  | nil => rfl
  | cons v vs ih => simp [ih]

/-- C8 (amended): for every single-choice field, each choice's value is the
raw enum literal unchanged (the values are exactly the resolved node's enum,
in order), and each choice's label is `formatEnumLabel(String(value))` —
underscores and hyphens replaced by spaces, a space inserted at
lower-to-upper camelCase boundaries, and the result trimmed, with NO
capitalization step (unlike `formatLabel`; see the counterexample). -/
theorem c8_choice_labels (nm : String) (rq : Bool) (s : JSONSchema)
    (f : FormField) (h : parseProperty nm s rq = some f)
    (ht : f.type = FormFieldType.select) :
    f.options.map Choice.value = (resolveCompositeSchema s).f.enum.getD [] ∧
    ∀ o ∈ f.options, o.label = formatEnumLabel (jsString o.value) := by
  simp only [parseProperty] at h
  cases hdt : determineFieldType (resolveCompositeSchema s) <;>
    simp only [hdt] at h <;> injection h with h2 <;> subst h2 <;> simp at ht
  refine ⟨choiceValues_id _, ?_⟩
  intro o ho
  rcases List.mem_map.1 ho with ⟨v, hv, rfl⟩
  rfl

/-- The field synthesized for `{enum: ["webp"]}` under the name "fmt". -/
def c8wField : FormField := {
  name := "fmt", label := "Fmt",
  schema := .mk { enum := some [.str "webp"] },
  type := .select, options := [⟨"webp", .str "webp"⟩] }

/-- Witness for C8 at a one-element enum. -/
theorem c8_choice_labels_witness :
    c8wField.options.map Choice.value =
      (resolveCompositeSchema (.mk { enum := some [.str "webp"] })).f.enum.getD [] ∧
    ∀ o ∈ c8wField.options, o.label = formatEnumLabel (jsString o.value) :=
  c8_choice_labels "fmt" false (.mk { enum := some [.str "webp"] }) c8wField rfl rfl

/-- A one-element enum node. -/
def c8Cex : JSONSchema := .mk { enum := some [.str "webp"] }

/-- C8 counterexample: the claim demands the first letter of every word
capitalized, i.e. label "Webp" (what `formatLabel` would produce), but the
synthesized choice label is the uncapitalized "webp" — `formatEnumLabel` has
no capitalization step. -/
theorem c8_counterexample_labels_not_capitalized :
    (parseProperty "fmt" c8Cex false).map (fun f => f.options.map Choice.label) =
      some ["webp"] ∧
    formatLabel "webp" = "Webp" ∧
    (["webp"] : List String) ≠ ["Webp"] :=
  ⟨rfl, rfl, by decide⟩

/-! ### C9: run-count monotonicity -/

/-- C9: for two model records identical except `runCount` (absent treated as
0), the one with the higher run count never scores lower. -/
theorem c9_runCount_monotone (now : ℝ) (m : Model) (r1 r2 : Option ℕ)
    (h : r1.getD 0 ≤ r2.getD 0) :
    calculateModelScore now { m with run_count := r1 } ≤
      calculateModelScore now { m with run_count := r2 } := by
  unfold calculateModelScore
  dsimp only
  have key : (if (r1.getD 0) > 0 then Real.logb 10 ((r1.getD 0 : ℝ) + 1) * 5 else 0) ≤
      (if (r2.getD 0) > 0 then Real.logb 10 ((r2.getD 0 : ℝ) + 1) * 5 else 0) := by
    rcases Nat.eq_zero_or_pos (r1.getD 0) with h0 | hpos
    · rw [h0]
      simp only [gt_iff_lt, lt_irrefl, if_false]
      split
      · have hc : (1:ℝ) ≤ (r2.getD 0 : ℝ) + 1 := by
          have := Nat.cast_nonneg (α := ℝ) (r2.getD 0)
          linarith
        have hl := Real.logb_nonneg (b := 10) (by norm_num) hc
        linarith
      · exact le_refl 0
    · have hpos2 : 0 < r2.getD 0 := lt_of_lt_of_le hpos h
      rw [if_pos hpos, if_pos hpos2]
      have hle : ((r1.getD 0 : ℝ)) + 1 ≤ (r2.getD 0 : ℝ) + 1 := by
        have hcast : (r1.getD 0 : ℝ) ≤ (r2.getD 0 : ℝ) := by exact_mod_cast h
        linarith
      have h1p : (0:ℝ) < (r1.getD 0 : ℝ) + 1 := by positivity
      have hlog := Real.logb_le_logb_of_le (b := 10) (by norm_num) h1p hle
      linarith
  exact add_le_add (add_le_add (add_le_add (add_le_add key le_rfl) le_rfl) le_rfl) le_rfl

/-- A model for the C9 witness. -/
def c9wModel : Model := { owner := "acme", name := "gen" }

/-- Witness for C9 at run counts 100 and 10000. -/
theorem c9_runCount_monotone_witness :
    calculateModelScore 0 { c9wModel with run_count := some 100 } ≤
      calculateModelScore 0 { c9wModel with run_count := some 10000 } :=
  c9_runCount_monotone 0 c9wModel (some 100) (some 10000) (by decide)

/-! ### C10: one field per non-null property -/

theorem collectFields_length (props : List (String × Option JSONSchema))
    (req : List String) :
    (collectFields props req).length =
      (props.filter (fun p => p.2.isSome)).length := by
  induction props with
  | nil => rfl
  | cons p ps ih =>
    obtain ⟨pn, pso⟩ := p
    cases pso with
    | none =>
      rw [show collectFields ((pn, none) :: ps) req = collectFields ps req from rfl]
      rw [show ((pn, (none : Option JSONSchema)) :: ps).filter (fun p => p.2.isSome) =
        ps.filter (fun p => p.2.isSome) from by simp [List.filter_cons]]
      exact ih
    | some psch =>
      obtain ⟨fld, hfld⟩ := Option.isSome_iff_exists.mp
        (show (parseProperty pn psch (req.contains pn)).isSome = true from rfl)
      have e1 : collectFields ((pn, some psch) :: ps) req =
          fld :: collectFields ps req := by
        unfold collectFields
        rw [List.filterMap_cons]
        dsimp only
        rw [hfld]
      have e2 : ((pn, some psch) :: ps).filter (fun p => p.2.isSome) =
          (pn, some psch) :: ps.filter (fun p => p.2.isSome) := by
        simp [List.filter_cons]
      rw [e1, e2]
      simpa using ih

/-- C10: `parseProperty` never takes the absent outcome its signature allows,
so for a schema whose `properties` mapping is present, `parseInputSchema`
emits exactly one field descriptor per non-null property entry. -/
theorem c10_field_count :
    (∀ (nm : String) (ps : JSONSchema) (rq : Bool),
      (parseProperty nm ps rq).isSome = true) ∧
    (∀ (s : JSONSchema) (props : List (String × Option JSONSchema)),
      s.f.properties = some props →
      (parseInputSchema (some s)).length =
        (props.filter (fun p => p.2.isSome)).length) := by
  refine ⟨fun nm ps rq => rfl, ?_⟩
  intro s props hp
  unfold parseInputSchema
  simp only [hp]
  rw [(sortByCmp_perm _ _).length_eq]
  exact collectFields_length props _

/-- A schema with two non-null properties and one null property entry. -/
def c10w : JSONSchema := .mk {
  properties := some [("a", some (.mk {})), ("bad", none),
                      ("b", some (.mk { type := some "boolean" }))] }

/-- Witness for C10: the null entry is skipped, both real properties emit a
field. -/
theorem c10_field_count_witness :
    (parseInputSchema (some c10w)).length =
      ([("a", some (JSONSchema.mk {})), ("bad", none),
        ("b", some (.mk { type := some "boolean" }))].filter
          (fun p => p.2.isSome)).length :=
  c10_field_count.2 c10w
    [("a", some (.mk {})), ("bad", none),
     ("b", some (.mk { type := some "boolean" }))] rfl
